import Mathlib

/-!
Shallow embedding of the simpleperf folded-stack converter
(`convert_simpleperf_to_folded.py` and `resolve_and_fold.py`).

Python strings are modelled as Lean `String` with character-level helper
functions mirroring the Python primitives used by the source (`str.strip`,
`str.split`, `str.join`, `sorted`, `os.path.basename`, truthiness of strings
and dicts).  Python dicts holding optional fields are modelled as structures
of `Option` fields, where `none` means the key is absent.  The external
collaborators (the filesystem walked by the image locator and the
`llvm-symbolizer` subprocess) are modelled as an explicit environment of
oracle functions; an exception raised by the subprocess invocation is the
`none` result of the oracle.
-/

/-- Python truthiness of an optional string value (`None` and `""` are falsy). -/
def strTruthy : Option String → Bool
  | some s => s ≠ ""
  | none => false

/-- Lexicographic comparison of character lists by code point, mirroring how
Python compares strings with `<=` (and hence how `sorted` orders them). -/
def charLeb : List Char → List Char → Bool
  | [], _ => true
  | _ :: _, [] => false
  | a :: as, b :: bs =>
    if a.toNat < b.toNat then true
    else if b.toNat < a.toNat then false
    else charLeb as bs

/-- Python string `<=`, as a Bool. -/
def pyStrLeb (a b : String) : Bool := charLeb a.data b.data

/-- Python string `<=`, as a Prop (the order `sorted` uses). -/
def pyLe (a b : String) : Prop := pyStrLeb a b = true

instance : DecidableRel pyLe := fun a b => instDecidableEqBool (pyStrLeb a b) true

theorem charLeb_total (as bs : List Char) : charLeb as bs = true ∨ charLeb bs as = true := by
  induction as generalizing bs with
  | nil => left; simp [charLeb]
  | cons a as ih =>
    cases bs with
    | nil => right; simp [charLeb]
    | cons b bs =>
      rcases Nat.lt_trichotomy a.toNat b.toNat with h | h | h
      · left; simp [charLeb, h]
      · have h1 : ¬ a.toNat < b.toNat := by omega
        have h2 : ¬ b.toNat < a.toNat := by omega
        simpa [charLeb, h1, h2] using ih bs
      · right; simp [charLeb, h]

theorem charLeb_trans (as bs cs : List Char) (h1 : charLeb as bs = true)
    (h2 : charLeb bs cs = true) : charLeb as cs = true := by
  induction as generalizing bs cs with
  | nil => simp [charLeb]
  | cons a as ih =>
    cases bs with
    | nil => simp [charLeb] at h1
    | cons b bs =>
      cases cs with
      | nil => simp [charLeb] at h2
      | cons c cs =>
        simp only [charLeb] at h1 h2 ⊢
        split_ifs at h1 h2 ⊢ <;> first
          | rfl
          | omega
          | (exact ih bs cs h1 h2)

instance : IsTotal String pyLe := ⟨fun a b => charLeb_total a.data b.data⟩

instance : IsTrans String pyLe := ⟨fun a b c => charLeb_trans a.data b.data c.data⟩

/-- Python `sorted` on a list of strings (ascending code-point lexicographic
order; the source sorts duplicate-free address lists, for which any sorting
algorithm agrees with `sorted`). -/
def pySort (l : List String) : List String := List.insertionSort pyLe l

theorem pySort_sorted (l : List String) : List.Sorted pyLe (pySort l) :=
  List.sorted_insertionSort pyLe l

theorem pySort_perm (l : List String) : (pySort l).Perm l :=
  List.perm_insertionSort pyLe l

theorem pySort_length (l : List String) : (pySort l).length = l.length :=
  (pySort_perm l).length_eq

theorem pySort_nodup (l : List String) (h : l.Nodup) : (pySort l).Nodup :=
  (pySort_perm l).nodup_iff.mpr h

theorem pySort_mem (l : List String) (v : String) : v ∈ pySort l ↔ v ∈ l :=
  (pySort_perm l).mem_iff

/-- Splitting a character list on a single separator character, with Python
`str.split(sep)` semantics (`''.split(sep) == ['']`). -/
def chSplit (sep : Char) : List Char → List (List Char)
  | [] => [[]]
  | c :: cs =>
    if c = sep then [] :: chSplit sep cs
    else
      match chSplit sep cs with
      | g :: gs => (c :: g) :: gs
      | [] => [[c]]

/-- Python `s.split(sep)` for a one-character separator. -/
def pySplit (sep : Char) (s : String) : List String :=
  (chSplit sep s.data).map (fun l => String.mk l)

/-- Python `s.strip()`: drop leading and trailing whitespace. -/
def pyStrip (s : String) : String :=
  String.mk (((s.data.dropWhile Char.isWhitespace).reverse.dropWhile Char.isWhitespace).reverse)

/-- Python `sep.join(parts)`. -/
def pyJoin (sep : String) : List String → String
  | [] => ""
  | x :: xs => xs.foldl (fun acc y => acc ++ sep ++ y) x

/-- Python `s.startswith(pre)`. -/
def pyStartsWith (pre s : String) : Bool := pre.data.isPrefixOf s.data

/-- Auxiliary substring scan for `pyContains`. -/
def pyContainsAux (sub : List Char) : List Char → Bool
  | [] => sub.isEmpty
  | c :: cs => sub.isPrefixOf (c :: cs) || pyContainsAux sub cs

/-- Python substring test `sub in s`. -/
def pyContains (sub s : String) : Bool := sub.isEmpty || pyContainsAux sub.data s.data

/-- Python `os.path.basename`: everything after the last path separator. -/
def basename (p : String) : String := (pySplit '/' p).getLastD ""

/-- Python `str(x)` for an optional string, as used when an f-string
interpolates a possibly-missing dict value (`None` prints as `"None"`). -/
def pyOptRepr : Option String → String
  | some s => s
  | none => "None"

/-- Numeric value of one hexadecimal digit character (0 for non-digits). -/
def hexDigitVal (c : Char) : Nat :=
  if 48 ≤ c.toNat ∧ c.toNat ≤ 57 then c.toNat - 48
  else if 97 ≤ c.toNat ∧ c.toNat ≤ 102 then c.toNat - 97 + 10
  else if 65 ≤ c.toNat ∧ c.toNat ≤ 70 then c.toNat - 65 + 10
  else 0

/-- Numeric value of a hexadecimal address string. -/
def hexToNat (s : String) : Nat := s.data.foldl (fun acc c => acc * 16 + hexDigitVal c) 0

example : pySort ["ff", "1a2b"] = ["1a2b", "ff"] := by decide
example : hexToNat "ff" = 255 ∧ hexToNat "1a2b" = 6699 := by decide
example : basename "/lib/libfoo.so" = "libfoo.so" := by decide
example : pySplit '\n' (pyStrip "  a\nb \n") = ["a", "b"] := by decide
example : pyJoin "\n" ["0xa", "0xb"] = "0xa\n0xb" := by decide
example : pyContains "lib" "/system/lib64/x.so" = true := by decide
example : pyStartsWith "/" "/lib/a.so" = true := by decide

/-! ## Data model -/

/-- One stack frame as parsed by `parse_simpleperf_output_v2`: the
`current_frame` dict with optional keys `vaddr`, `file`, `symbol`
(`none` models an absent key). -/
structure Frame where
  vaddr : Option String := none
  file : Option String := none
  symbol : Option String := none
deriving DecidableEq

/-- Python truthiness of the `current_frame` dict: a dict is truthy iff some
key is present. -/
def frameTruthy (f : Frame) : Bool := f.vaddr.isSome || f.file.isSome || f.symbol.isSome

/-- One parsed sample of `resolve_and_fold.py`: the dict
`{'count': ..., 'stack': ...}` appended to the sample list. -/
structure Sample where
  count : Nat
  stack : List Frame
deriving DecidableEq

/-! ## The frame parser of `resolve_and_fold.py` (`parse_simpleperf_output_v2`)

Input lines are modelled by their recognised kind together with the payload
extracted by the corresponding regular expression (`none` when the regex does
not match); unrecognised lines are `other`.  The payload of `vaddrLine` is the
matched `[0-9a-fA-F]+` group, the payloads of `fileLine` / `symbolLine` are the
matched `(.+)` group after `strip()`. -/

inductive Line where
  | sampleMarker
  | eventCount (n : Option Nat)
  | callchainMarker
  | vaddrLine (v : Option String)
  | fileLine (s : Option String)
  | symbolLine (s : Option String)
  | other
deriving DecidableEq

/-- Parser state of `parse_simpleperf_output_v2`: the accumulated sample list,
`current_sample` (`none` models the initial falsy `{}`, `some n` the dict
`{'count': n}` — `count` is the only key the code ever writes), the
`current_stack` frame list, the pending `current_frame`, and the
(written but never read) `in_callchain` flag. -/
structure PState where
  samples : List Sample
  csample : Option Nat
  cstack : List Frame
  cframe : Frame
  inCallchain : Bool
deriving DecidableEq

/-- The common tail of both finalisation paths: reverse the collected stack
(leaf-first to root-first) and append the sample only if the stack is
non-empty. -/
def finalizeStack (samples : List Sample) (n : Nat) (stack : List Frame) : List Sample :=
  if stack.isEmpty then samples else samples ++ [⟨n, stack.reverse⟩]

/-- Finalisation of the previous record performed when a `sample:` marker line
arrives (lines 93-102): the pending frame joins the stack only when the stack
is empty, then the stack is reversed and the sample kept only if non-empty. -/
def finalizeAtMarker (st : PState) : List Sample :=
  match st.csample with
  | none => st.samples
  | some n =>
    finalizeStack st.samples n
      (if st.cstack.isEmpty && frameTruthy st.cframe then st.cstack ++ [st.cframe] else st.cstack)

/-- Finalisation of the last record performed at end of stream (lines
143-148): the pending frame joins the stack unconditionally, then the stack is
reversed and the sample kept only if non-empty. -/
def finalizeAtEOF (st : PState) : List Sample :=
  match st.csample with
  | none => st.samples
  | some n =>
    finalizeStack st.samples n
      (if frameTruthy st.cframe then st.cstack ++ [st.cframe] else st.cstack)

/-- One step of the `parse_simpleperf_output_v2` line loop. -/
def pstep (st : PState) (l : Line) : PState :=
  match l with
  | .sampleMarker =>
    { samples := finalizeAtMarker st, csample := some 1, cstack := [], cframe := {},
      inCallchain := false }
  | .eventCount n =>
    match n with
    | some k => { st with csample := some k }
    | none => st
  | .callchainMarker =>
    if frameTruthy st.cframe then
      { st with inCallchain := true, cstack := st.cstack ++ [st.cframe], cframe := {} }
    else { st with inCallchain := true }
  | .vaddrLine v =>
    let st1 :=
      if strTruthy st.cframe.vaddr then
        { st with cstack := st.cstack ++ [st.cframe], cframe := {} }
      else st
    match v with
    | some s => { st1 with cframe := { st1.cframe with vaddr := some s } }
    | none => st1
  | .fileLine s =>
    match s with
    | some f => { st with cframe := { st.cframe with file := some f } }
    | none => st
  | .symbolLine s =>
    match s with
    | some sy => { st with cframe := { st.cframe with symbol := some sy } }
    | none => st
  | .other => st

/-- Initial parser state (`samples = []`, `current_sample = {}`, empty stack
and frame buffer). -/
def initPState : PState :=
  { samples := [], csample := none, cstack := [], cframe := {}, inCallchain := false }

/-- `parse_simpleperf_output_v2`: run the line loop, then finalise the last
in-progress sample at end of stream. -/
def parse_simpleperf_output_v2 (ls : List Line) : List Sample :=
  finalizeAtEOF (ls.foldl pstep initPState)

/-! ## The parser of `convert_simpleperf_to_folded.py` (`parse_simpleperf_output`)

The recognised line kinds of that file: `sample:` markers, `event_count:`,
`thread_name:`, `callchain:` and `symbol:` lines (payload = regex group, after
`strip()` where the source strips). -/

inductive CLine where
  | sampleMarker
  | eventCount (n : Option Nat)
  | threadName (s : Option String)
  | callchainMarker
  | symbolLine (s : Option String)
  | other
deriving DecidableEq

/-- The per-sample dict of `convert_simpleperf_to_folded.py`, with optional
keys `count`, `thread`, `main_symbol`. -/
structure SampleDict where
  count : Option Nat := none
  thread : Option String := none
  main_symbol : Option String := none
deriving DecidableEq

/-- Python truthiness of the per-sample dict (truthy iff some key present). -/
def sdictTruthy (s : SampleDict) : Bool :=
  s.count.isSome || s.thread.isSome || s.main_symbol.isSome

/-- Parser state of `parse_simpleperf_output`: `current_sample` starts as
Python `None` (modelled `none`); after a marker it is the dict (modelled
`some`). -/
structure CState where
  samples : List (SampleDict × List String)
  csample : Option SampleDict
  callchain : List String
  inCallchain : Bool
deriving DecidableEq

/-- Finalisation rule of `parse_simpleperf_output` (used identically at a new
`sample:` marker, lines 26-35, and at end of stream, lines 67-72): when the
current sample dict is truthy, an empty callchain falls back to the
`main_symbol` singleton if that is truthy, and the sample is kept iff the
resulting callchain is non-empty, reversed. -/
def cFinalizeChain (samples : List (SampleDict × List String)) (cs : SampleDict)
    (callchain : List String) : List (SampleDict × List String) :=
  if callchain.isEmpty then samples else samples ++ [(cs, callchain.reverse)]

/-- The save of one record into the sample list of `parse_simpleperf_output`,
shared by both finalisation sites. -/
def cFinalize (st : CState) : List (SampleDict × List String) :=
  match st.csample with
  | none => st.samples
  | some cs =>
    if sdictTruthy cs then
      cFinalizeChain st.samples cs
        (if st.callchain.isEmpty && strTruthy cs.main_symbol then [cs.main_symbol.getD ""]
         else st.callchain)
    else st.samples

/-- One step of the `parse_simpleperf_output` line loop.  A field line that
assigns into `current_sample` while it is still Python `None` raises
(`TypeError` / `AttributeError`); that exception is modelled by `none`. -/
def cstep (st : CState) (l : CLine) : Option CState :=
  match l with
  | .sampleMarker =>
    some { samples := cFinalize st, csample := some {}, callchain := [], inCallchain := false }
  | .eventCount n =>
    match n with
    | some k =>
      match st.csample with
      | none => none
      | some cs => some { st with csample := some { cs with count := some k } }
    | none => some st
  | .threadName s =>
    match s with
    | some t =>
      match st.csample with
      | none => none
      | some cs => some { st with csample := some { cs with thread := some t } }
    | none => some st
  | .callchainMarker => some { st with inCallchain := true }
  | .symbolLine s =>
    match s with
    | some sy =>
      if st.inCallchain then some { st with callchain := st.callchain ++ [sy] }
      else
        match st.csample with
        | none => none
        | some cs =>
          if strTruthy cs.main_symbol then some st
          else some { st with csample := some { cs with main_symbol := some sy } }
    | none => some st
  | .other => some st

/-- Initial state of `parse_simpleperf_output` (`current_sample = None`). -/
def initCState : CState :=
  { samples := [], csample := none, callchain := [], inCallchain := false }

/-- `parse_simpleperf_output` of `convert_simpleperf_to_folded.py`; `none`
models an uncaught exception escaping the line loop. -/
def parse_simpleperf_output (ls : List CLine) : Option (List (SampleDict × List String)) :=
  (ls.foldlM cstep initCState).map cFinalize

/-! ## Folding (`convert_to_folded` of `convert_simpleperf_to_folded.py`)

The accumulating dict `folded_stacks` (and the `defaultdict(int)` of
`resolve_and_fold.py`) is modelled as an insertion-ordered association list:
adding to an existing key updates it in place, a new key is appended. -/

/-- Python `folded[key] += count` on an insertion-ordered counter dict. -/
def addCount (l : List (String × Nat)) (k : String) (c : Nat) : List (String × Nat) :=
  match l with
  | [] => [(k, c)]
  | (k', c') :: rest => if k' = k then (k', c' + c) :: rest else (k', c') :: addCount rest k c

/-- Association-list lookup (Python `dict.get`). -/
def lookupAssoc {κ ν : Type} [DecidableEq κ] (l : List (κ × ν)) (k : κ) : Option ν :=
  match l with
  | [] => none
  | (k', v') :: rest => if k' = k then some v' else lookupAssoc rest k

/-- Aggregated count of a fold key (0 when absent). -/
def lookupCount (l : List (String × Nat)) (k : String) : Nat := (lookupAssoc l k).getD 0

/-- Total weight stored in a folded mapping. -/
def sumVals (l : List (String × Nat)) : Nat := (l.map Prod.snd).sum

/-- The fold key construction of `convert_to_folded` (lines 88-95): when the
sample dict has a `main_symbol` key and the stack's leaf label differs from
it, `main_symbol` is appended; otherwise the stack is left alone. -/
def foldStack (cs : SampleDict) (stack : List String) : List String :=
  match cs.main_symbol with
  | some m => if stack.getLast? ≠ some m then stack ++ [m] else stack
  | none => stack

/-- One iteration of the `convert_to_folded` loop. -/
def convertStep (folded : List (String × Nat)) (p : SampleDict × List String) :
    List (String × Nat) :=
  if p.2.isEmpty then folded
  else addCount folded (pyJoin ";" (foldStack p.1 p.2)) (p.1.count.getD 1)

/-- `convert_to_folded` of `convert_simpleperf_to_folded.py`. -/
def convert_to_folded (samples : List (SampleDict × List String)) : List (String × Nat) :=
  samples.foldl convertStep []

/-! ## Symbol resolution (`resolve_symbols` of `resolve_and_fold.py`)

The filesystem probed by the image locator and the `llvm-symbolizer`
subprocess are external collaborators, modelled as oracle functions. -/

/-- External collaborators of `resolve_symbols`: `pathExists` models
`os.path.exists`; `walkCandidates` returns, for a base name, the matching
file paths the `os.walk` search collects under `SYMBOLS_DIR` in traversal
order; `symbolizer` maps the located object path and the standard-input text
to the subprocess standard output (`none` models a raised exception). -/
structure ExtEnv where
  pathExists : String → Bool
  walkCandidates : String → List String
  symbolizer : String → String → Option String

/-- The configured local symbol-root directory. -/
def SYMBOLS_DIR : String :=
  "/home/yanxi/loongson/aosp15.la/out/target/product/loongson_3a5000/symbols"

/-- The image locator inlined in `resolve_symbols` (lines 166-195): path-join
first, then the recursive base-name search, else not found. -/
def locateImage (env : ExtEnv) (file_path : String) : Option String :=
  let rel_path := if pyStartsWith "/" file_path then String.mk (file_path.data.drop 1) else file_path
  let local_path := SYMBOLS_DIR ++ "/" ++ rel_path
  if env.pathExists local_path then some local_path
  else
    match env.walkCandidates (basename file_path) with
    | c :: _ => some c
    | [] => none

/-- Python `set.add` on a set modelled as a duplicate-free list in insertion
order. -/
def addrAdd (l : List String) (v : String) : List String :=
  if v ∈ l then l else l ++ [v]

/-- `to_resolve[f].add(v)` on the `defaultdict(set)` modelled as an
insertion-ordered association list of duplicate-free address lists. -/
def toResolveAdd (acc : List (String × List String)) (f v : String) :
    List (String × List String) :=
  match acc with
  | [] => [(f, [v])]
  | (g, vs) :: rest =>
    if g = f then (g, addrAdd vs v) :: rest else (g, vs) :: toResolveAdd rest f v

/-- The eligibility filter of the address collector (line 159):
`f and v and f.startswith('/') and 'lib' in f`. -/
def frameEligible (fr : Frame) : Bool :=
  match fr.file, fr.vaddr with
  | some f, some v => f ≠ "" && v ≠ "" && pyStartsWith "/" f && pyContains "lib" f
  | _, _ => false

/-- The address collector (lines 154-160): group the distinct eligible
addresses of every frame by owning image path. -/
def collectToResolve (samples : List Sample) : List (String × List String) :=
  samples.foldl
    (fun acc s =>
      s.stack.foldl
        (fun acc2 fr =>
          if frameEligible fr then toResolveAdd acc2 (fr.file.getD "") (fr.vaddr.getD "") else acc2)
        acc)
    []

/-- Python dict assignment `cache[k] = v`: update in place when the key
exists, else append. -/
def dictSet {κ ν : Type} [DecidableEq κ] (l : List (κ × ν)) (k : κ) (v : ν) : List (κ × ν) :=
  match l with
  | [] => [(k, v)]
  | (k', v') :: rest => if k' = k then (k, v) :: rest else (k', v') :: dictSet rest k v

/-- The batched standard-input text (lines 200-201): one `0x`-prefixed
address per line. -/
def batchInput (vaddr_list : List String) : String :=
  pyJoin "\n" (vaddr_list.map (fun v => "0x" ++ v))

/-- The cache-population loop over `enumerate(vaddr_list)` (lines 216-219):
take line `i*2` as the function name and cache it under the recorded image
path unless it is the `??` sentinel. -/
def cacheImage (lines : List String) (file_path : String) :
    Nat → List String → List ((String × String) × String) → List ((String × String) × String)
  | _, [], cache => cache
  | i, vaddr :: rest, cache =>
    let func_name := lines.getD (i * 2) ""
    cacheImage lines file_path (i + 1) rest
      (if func_name ≠ "??" then dictSet cache (file_path, vaddr) func_name else cache)

/-- Processing of one image batch inside `resolve_symbols` (lines 166-219):
locate the image, sort the distinct addresses, invoke the symbolizer once on
the batched input, and populate the cache only when the response has at least
two lines per address. -/
def processImage (env : ExtEnv) (cache : List ((String × String) × String))
    (file_path : String) (vaddrs : List String) : List ((String × String) × String) :=
  match locateImage env file_path with
  | none => cache
  | some local_path =>
    let vaddr_list := pySort vaddrs
    let input_str := batchInput vaddr_list
    match env.symbolizer local_path input_str with
    | none => cache
    | some out =>
      let lines := pySplit '\n' (pyStrip out)
      if vaddr_list.length * 2 ≤ lines.length then cacheImage lines file_path 0 vaddr_list cache
      else cache

/-- `resolve_symbols` of `resolve_and_fold.py`. -/
def resolve_symbols (env : ExtEnv) (samples : List Sample) :
    List ((String × String) × String) :=
  (collectToResolve samples).foldl (fun cache fv => processImage env cache fv.1 fv.2) []

/-! ## The folding stage of `resolve_and_fold.py` (`main`, lines 235-252) -/

/-- The fold-time cache access `(frame.get('file'), frame.get('vaddr')) in
resolved`: a frame missing either key can never hit a cache entry, whose keys
are pairs of real strings. -/
def cacheLookup (resolved : List ((String × String) × String)) (fr : Frame) : Option String :=
  match fr.file, fr.vaddr with
  | some f, some v => lookupAssoc resolved (f, v)
  | _, _ => none

/-- Rendering one frame to its display label (lines 239-248). -/
def renderFrame (resolved : List ((String × String) × String)) (fr : Frame) : String :=
  match cacheLookup resolved fr with
  | some name => name
  | none =>
    let sym := fr.symbol.getD "unknown"
    if sym = "unknown" && strTruthy fr.file then
      basename (fr.file.getD "") ++ "[+" ++ pyOptRepr fr.vaddr ++ "]"
    else sym

/-- One iteration of the folding loop of `main`. -/
def foldStep (resolved : List ((String × String) × String)) (folded : List (String × Nat))
    (sample : Sample) : List (String × Nat) :=
  let stack_syms := sample.stack.map (renderFrame resolved)
  if stack_syms.isEmpty then folded
  else addCount folded (pyJoin ";" stack_syms) sample.count

/-- The folding stage of `main` in `resolve_and_fold.py`. -/
def foldSamples (resolved : List ((String × String) × String)) (samples : List Sample) :
    List (String × Nat) :=
  samples.foldl (foldStep resolved) []

/-- Position of a string in a list (first occurrence), used to state which
response line belongs to which submitted address. -/
def idxOf (v : String) : List String → Nat
  | [] => 0
  | x :: xs => if x = v then 0 else idxOf v xs + 1

/-! ## Association-list lemmas -/

theorem sumVals_addCount (l : List (String × Nat)) (k : String) (c : Nat) :
    sumVals (addCount l k c) = sumVals l + c := by
  induction l with
  | nil => simp [addCount, sumVals]
  | cons p rest ih =>
    obtain ⟨k', c'⟩ := p
    by_cases h : k' = k <;> simp [addCount, h, sumVals] at ih ⊢ <;> omega

theorem lookupCount_addCount (l : List (String × Nat)) (k : String) (c : Nat) (k' : String) :
    lookupCount (addCount l k c) k' = lookupCount l k' + (if k = k' then c else 0) := by
  induction l with
  | nil =>
    by_cases h : k = k' <;> simp [addCount, lookupCount, lookupAssoc, h]
  | cons p rest ih =>
    obtain ⟨k0, c0⟩ := p
    by_cases h0 : k0 = k
    · subst h0
      by_cases h1 : k0 = k' <;> simp [addCount, lookupCount, lookupAssoc, h1]
    · by_cases h1 : k0 = k'
      · subst h1
        have hk : ¬ k = k0 := fun h => h0 h.symm
        simp [addCount, h0, lookupCount, lookupAssoc, hk]
      · simp [addCount, h0, lookupCount, lookupAssoc, h1] at ih ⊢
        exact ih

theorem lookupAssoc_addCount_isSome (l : List (String × Nat)) (k : String) (c : Nat)
    (k' : String) :
    (lookupAssoc (addCount l k c) k').isSome ↔ (lookupAssoc l k').isSome ∨ k = k' := by
  induction l with
  | nil =>
    by_cases h : k = k' <;> simp [addCount, lookupAssoc, h]
  | cons p rest ih =>
    obtain ⟨k0, c0⟩ := p
    by_cases h0 : k0 = k
    · subst h0
      by_cases h1 : k0 = k' <;> simp [addCount, lookupAssoc, h1]
    · by_cases h1 : k0 = k'
      · subst h1
        simp [addCount, h0, lookupAssoc]
      · simp [addCount, h0, lookupAssoc, h1, ih]

theorem lookupAssoc_mem {κ ν : Type} [DecidableEq κ] (l : List (κ × ν)) (k : κ) (v : ν)
    (h : lookupAssoc l k = some v) : (k, v) ∈ l := by
  induction l with
  | nil => simp [lookupAssoc] at h
  | cons p rest ih =>
    obtain ⟨k', v'⟩ := p
    by_cases hk : k' = k
    · subst hk
      simp [lookupAssoc] at h
      simp [h]
    · simp [lookupAssoc, hk] at h
      exact List.mem_cons_of_mem _ (ih h)

/-! ## Generic lemmas about counter-accumulating folds -/

/-- The shared shape of the two folding loops: guarded accumulation into the
counter dict. -/
def stepOf {α : Type} (g : α → Bool) (key : α → String) (cnt : α → Nat)
    (acc : List (String × Nat)) (x : α) : List (String × Nat) :=
  if g x then addCount acc (key x) (cnt x) else acc

theorem foldl_stepOf_sum {α : Type} (g : α → Bool) (key : α → String) (cnt : α → Nat)
    (l : List α) : ∀ acc,
    sumVals (l.foldl (stepOf g key cnt) acc) =
      sumVals acc + (l.map (fun x => if g x then cnt x else 0)).sum := by
  induction l with
  | nil => intro acc; simp
  | cons x xs ih =>
    intro acc
    by_cases h : g x
    · simp [List.foldl_cons, stepOf, h, ih, sumVals_addCount]
      omega
    · simp [List.foldl_cons, stepOf, h, ih]

theorem foldl_stepOf_lookupCount {α : Type} (g : α → Bool) (key : α → String) (cnt : α → Nat)
    (l : List α) : ∀ acc (k : String),
    lookupCount (l.foldl (stepOf g key cnt) acc) k =
      lookupCount acc k + (l.map (fun x => if g x ∧ key x = k then cnt x else 0)).sum := by
  induction l with
  | nil => intro acc k; simp
  | cons x xs ih =>
    intro acc k
    by_cases h : g x
    · by_cases hk : key x = k
      · simp [List.foldl_cons, stepOf, h, ih, lookupCount_addCount, hk]
        omega
      · simp [List.foldl_cons, stepOf, h, ih, lookupCount_addCount, hk]
    · simp [List.foldl_cons, stepOf, h, ih]

theorem foldl_stepOf_keys {α : Type} (g : α → Bool) (key : α → String) (cnt : α → Nat)
    (l : List α) : ∀ acc (k : String),
    (lookupAssoc (l.foldl (stepOf g key cnt) acc) k).isSome ↔
      (lookupAssoc acc k).isSome ∨ ∃ x ∈ l, g x ∧ key x = k := by
  induction l with
  | nil => intro acc k; simp
  | cons x xs ih =>
    intro acc k
    by_cases h : g x
    · by_cases hk : key x = k
      · simp [List.foldl_cons, stepOf, h, ih, lookupAssoc_addCount_isSome, hk]
      · simp [List.foldl_cons, stepOf, h, ih, lookupAssoc_addCount_isSome, hk]
    · simp [List.foldl_cons, stepOf, h, ih]

theorem map_if_sum_eq_filter {α : Type} (g : α → Bool) (cnt : α → Nat) (l : List α) :
    (l.map (fun x => if g x then cnt x else 0)).sum = ((l.filter g).map cnt).sum := by
  induction l with
  | nil => simp
  | cons x xs ih =>
    by_cases h : g x <;> simp [List.filter_cons, h, ih]

/-- The folding loop of `main` is a guarded counter accumulation. -/
theorem foldStep_eq_stepOf (resolved : List ((String × String) × String)) :
    foldStep resolved =
      stepOf (fun s : Sample => !(s.stack.map (renderFrame resolved)).isEmpty)
        (fun s => pyJoin ";" (s.stack.map (renderFrame resolved))) Sample.count := by
  funext acc s
  by_cases h : (s.stack.map (renderFrame resolved)).isEmpty <;> simp [foldStep, stepOf, h]

/-- The `convert_to_folded` loop is a guarded counter accumulation. -/
theorem convertStep_eq_stepOf :
    convertStep =
      stepOf (fun p : SampleDict × List String => !p.2.isEmpty)
        (fun p => pyJoin ";" (foldStack p.1 p.2)) (fun p => p.1.count.getD 1) := by
  funext acc p
  by_cases h : p.2.isEmpty <;> simp [convertStep, stepOf, h]

/-! ## Characterising the resolution cache -/

theorem lookupAssoc_dictSet {κ ν : Type} [DecidableEq κ] (l : List (κ × ν)) (k : κ) (v : ν)
    (k' : κ) : lookupAssoc (dictSet l k v) k' = if k = k' then some v else lookupAssoc l k' := by
  induction l with
  | nil => by_cases h : k = k' <;> simp [dictSet, lookupAssoc, h]
  | cons p rest ih =>
    obtain ⟨k0, v0⟩ := p
    by_cases h0 : k0 = k
    · subst h0
      by_cases h1 : k0 = k' <;> simp [dictSet, lookupAssoc, h1]
    · by_cases h1 : k0 = k'
      · subst h1
        have hk : ¬ k = k0 := fun h => h0 h.symm
        simp [dictSet, h0, lookupAssoc, hk]
      · simp [dictSet, h0, lookupAssoc, h1, ih]

theorem lookupAssoc_eq_none_of_not_mem_keys {κ ν : Type} [DecidableEq κ]
    (l : List (κ × ν)) (k : κ) (h : k ∉ l.map Prod.fst) : lookupAssoc l k = none := by
  induction l with
  | nil => rfl
  | cons p rest ih =>
    simp only [List.map_cons, List.mem_cons] at h
    push_neg at h
    have : ¬ p.1 = k := fun he => h.1 he.symm
    obtain ⟨k0, v0⟩ := p
    simp only [lookupAssoc, this, if_neg]
    exact ih h.2

theorem cacheImage_lookup_ne (lines : List String) (f : String) (vs : List String)
    (f' v' : String) (hne : f' ≠ f) : ∀ (i : Nat) cache,
    lookupAssoc (cacheImage lines f i vs cache) (f', v') = lookupAssoc cache (f', v') := by
  induction vs with
  | nil => intro i cache; rfl
  | cons v rest ih =>
    intro i cache
    simp only [cacheImage]
    rw [ih]
    split
    · rw [lookupAssoc_dictSet]
      have : ¬ (f, v) = (f', v') := by
        intro h
        exact hne (congrArg Prod.fst h).symm
      simp [this]
    · rfl

theorem cacheImage_lookup_notmem (lines : List String) (f : String) (vs : List String)
    (v' : String) (hnm : v' ∉ vs) : ∀ (i : Nat) cache,
    lookupAssoc (cacheImage lines f i vs cache) (f, v') = lookupAssoc cache (f, v') := by
  induction vs with
  | nil => intro i cache; rfl
  | cons v rest ih =>
    intro i cache
    simp only [List.mem_cons] at hnm
    push_neg at hnm
    simp only [cacheImage]
    rw [ih hnm.2]
    split
    · rw [lookupAssoc_dictSet]
      have : ¬ (f, v) = (f, v') := by
        intro h
        exact hnm.1 (congrArg Prod.snd h).symm
      simp [this]
    · rfl

theorem cacheImage_lookup_mem (lines : List String) (f : String) (vs : List String)
    (v' : String) (hnd : vs.Nodup) (hm : v' ∈ vs) : ∀ (i : Nat) cache,
    lookupAssoc (cacheImage lines f i vs cache) (f, v') =
      if lines.getD ((i + idxOf v' vs) * 2) "" ≠ "??" then
        some (lines.getD ((i + idxOf v' vs) * 2) "")
      else lookupAssoc cache (f, v') := by
  induction vs with
  | nil => simp at hm
  | cons v rest ih =>
    intro i cache
    rcases List.nodup_cons.mp hnd with ⟨hvn, hrest⟩
    by_cases hv : v = v'
    · subst hv
      have hnm : v ∉ rest := hvn
      simp only [cacheImage]
      rw [cacheImage_lookup_notmem lines f rest v hnm]
      simp only [idxOf, if_pos rfl, Nat.add_zero]
      split
      · rw [lookupAssoc_dictSet]
        simp_all
      · simp_all
    · have hm' : v' ∈ rest := by
        rcases List.mem_cons.mp hm with h | h
        · exact absurd h.symm hv
        · exact h
      simp only [cacheImage]
      rw [ih hrest hm']
      have hidx : i + 1 + idxOf v' rest = i + idxOf v' (v :: rest) := by
        simp only [idxOf, if_neg hv]
        omega
      rw [hidx]
      have hkey : ¬ (f, v) = (f, v') := by
        intro h
        exact hv (congrArg Prod.snd h)
      split
      · rfl
      · split
        · rw [lookupAssoc_dictSet]
          simp [hkey]
        · rfl

/-- What `resolve_symbols` would record for address `v` of image `file_path`
whose distinct pending addresses are `vaddrs` (`none`: nothing recorded).
This reformulates one iteration of the per-image loop from the point of view
of a single cache key; `processImage_lookup` proves it exact. -/
def imageLookup (env : ExtEnv) (file_path : String) (vaddrs : List String) (v : String) :
    Option String :=
  match locateImage env file_path with
  | none => none
  | some local_path =>
    match env.symbolizer local_path (batchInput (pySort vaddrs)) with
    | none => none
    | some out =>
      let lines := pySplit '\n' (pyStrip out)
      if (pySort vaddrs).length * 2 ≤ lines.length then
        if v ∈ pySort vaddrs then
          if lines.getD (idxOf v (pySort vaddrs) * 2) "" ≠ "??" then
            some (lines.getD (idxOf v (pySort vaddrs) * 2) "")
          else none
        else none
      else none

theorem processImage_lookup (env : ExtEnv) (cache : List ((String × String) × String))
    (f : String) (vaddrs : List String) (hnd : vaddrs.Nodup) (f' v' : String) :
    lookupAssoc (processImage env cache f vaddrs) (f', v') =
      if f' = f then
        (match imageLookup env f vaddrs v' with
         | some n => some n
         | none => lookupAssoc cache (f', v'))
      else lookupAssoc cache (f', v') := by
  unfold processImage imageLookup
  cases hlo : locateImage env f with
  | none => simp
  | some lp =>
    simp only
    cases hsy : env.symbolizer lp (batchInput (pySort vaddrs)) with
    | none => simp
    | some out =>
      simp only
      by_cases hlen : (pySort vaddrs).length * 2 ≤ (pySplit '\n' (pyStrip out)).length
      · simp only [if_pos hlen]
        by_cases hf : f' = f
        · subst hf
          by_cases hv : v' ∈ pySort vaddrs
          · rw [cacheImage_lookup_mem _ _ _ _ (pySort_nodup vaddrs hnd) hv]
            simp only [Nat.zero_add, if_pos hv, if_pos rfl]
            by_cases hfn : (pySplit '\n' (pyStrip out))[idxOf v' (pySort vaddrs) * 2]?.getD "" = "??" <;>
              simp [List.getD_eq_getElem?_getD, hfn]
          · rw [cacheImage_lookup_notmem _ _ _ _ hv]
            simp [hv]
        · rw [cacheImage_lookup_ne _ _ _ _ _ hf]
          simp [hf]
      · simp only [if_neg hlen]
        by_cases hf : f' = f <;> simp [hf]

/-- Well-formedness of the `image → address set` grouping: distinct image
keys, duplicate-free address lists. -/
def goodToRes (l : List (String × List String)) : Prop :=
  (l.map Prod.fst).Nodup ∧ ∀ p ∈ l, p.2.Nodup

theorem toResolveAdd_keys (l : List (String × List String)) (f v : String) :
    (toResolveAdd l f v).map Prod.fst =
      if f ∈ l.map Prod.fst then l.map Prod.fst else l.map Prod.fst ++ [f] := by
  induction l with
  | nil => simp [toResolveAdd]
  | cons p rest ih =>
    obtain ⟨g, vs⟩ := p
    by_cases h : g = f
    · subst h
      simp [toResolveAdd]
    · have hne : ¬ f = g := fun he => h he.symm
      by_cases hm : f ∈ rest.map Prod.fst <;>
        simp [toResolveAdd, h, ih, hm, hne]

theorem addrAdd_nodup (l : List String) (v : String) (h : l.Nodup) : (addrAdd l v).Nodup := by
  unfold addrAdd
  by_cases hm : v ∈ l
  · simp [hm, h]
  · simp only [hm, if_neg, if_false]
    rw [List.nodup_append]
    exact ⟨h, List.nodup_singleton v, by
      intro a ha hb
      simp at hb
      subst hb
      exact hm ha⟩

theorem toResolveAdd_good (l : List (String × List String)) (f v : String)
    (h : goodToRes l) : goodToRes (toResolveAdd l f v) := by
  induction l with
  | nil =>
    exact ⟨by simp [toResolveAdd], by
      intro p hp
      simp [toResolveAdd] at hp
      simp [hp]⟩
  | cons p rest ih =>
    obtain ⟨g, vs⟩ := p
    obtain ⟨hkeys, hentries⟩ := h
    simp only [List.map_cons, List.nodup_cons] at hkeys
    have hgood : goodToRes rest := ⟨hkeys.2, fun q hq => hentries q (List.mem_cons_of_mem _ hq)⟩
    by_cases hgf : g = f
    · subst hgf
      refine ⟨by simp [toResolveAdd, hkeys.1, hkeys.2], ?_⟩
      intro q hq
      simp only [toResolveAdd, if_true, eq_self_iff_true, List.mem_cons] at hq
      rcases hq with hq | hq
      · subst hq
        exact addrAdd_nodup _ _ (hentries (g, vs) (List.mem_cons_self _ _))
      · exact hentries q (List.mem_cons_of_mem _ hq)
    · obtain ⟨ihkeys, ihentries⟩ := ih hgood
      constructor
      · simp only [toResolveAdd, if_neg hgf, List.map_cons, List.nodup_cons]
        refine ⟨?_, ihkeys⟩
        rw [toResolveAdd_keys]
        by_cases hm : f ∈ rest.map Prod.fst
        · simpa [hm] using hkeys.1
        · simp only [hm, if_neg, if_false, List.mem_append, List.mem_singleton]
          rintro (hc | hc)
          · exact hkeys.1 hc
          · exact hgf hc
      · intro q hq
        simp only [toResolveAdd, if_neg hgf, List.mem_cons] at hq
        rcases hq with hq | hq
        · subst hq
          exact hentries (g, vs) (List.mem_cons_self _ _)
        · exact ihentries q hq

theorem goodToRes_foldl {α : Type}
    (step : List (String × List String) → α → List (String × List String))
    (hstep : ∀ acc x, goodToRes acc → goodToRes (step acc x)) (l : List α) :
    ∀ acc, goodToRes acc → goodToRes (l.foldl step acc) := by
  induction l with
  | nil => intro acc h; exact h
  | cons x xs ih => intro acc h; exact ih _ (hstep acc x h)

theorem collectToResolve_good (samples : List Sample) : goodToRes (collectToResolve samples) := by
  unfold collectToResolve
  refine goodToRes_foldl _ ?_ samples [] ⟨List.nodup_nil, by simp⟩
  intro acc s hacc
  refine goodToRes_foldl _ ?_ s.stack acc hacc
  intro acc2 fr hacc2
  by_cases h : frameEligible fr = true
  · simpa [h] using toResolveAdd_good _ _ _ hacc2
  · simpa [h] using hacc2

theorem resolveFold_lookup (env : ExtEnv) (toRes : List (String × List String)) :
    ∀ (cache : List ((String × String) × String)) (f v : String),
    (toRes.map Prod.fst).Nodup → (∀ p ∈ toRes, p.2.Nodup) →
    lookupAssoc (toRes.foldl (fun c fv => processImage env c fv.1 fv.2) cache) (f, v) =
      match lookupAssoc toRes f with
      | some vaddrs =>
        (match imageLookup env f vaddrs v with
         | some n => some n
         | none => lookupAssoc cache (f, v))
      | none => lookupAssoc cache (f, v) := by
  induction toRes with
  | nil => intro cache f v _ _; rfl
  | cons p rest ih =>
    intro cache f v hkeys hentries
    obtain ⟨g, addrs⟩ := p
    simp only [List.map_cons, List.nodup_cons] at hkeys
    have hrest : ∀ q ∈ rest, q.2.Nodup := fun q hq => hentries q (List.mem_cons_of_mem _ hq)
    have haddrs : addrs.Nodup := hentries (g, addrs) (List.mem_cons_self _ _)
    simp only [List.foldl_cons]
    rw [ih _ f v hkeys.2 hrest]
    by_cases hgf : g = f
    · subst hgf
      have hnone : lookupAssoc rest g = none :=
        lookupAssoc_eq_none_of_not_mem_keys _ _ hkeys.1
      rw [hnone]
      simp only [lookupAssoc, if_pos rfl]
      rw [processImage_lookup env cache g addrs haddrs g v]
      simp
    · have hcons : lookupAssoc ((g, addrs) :: rest) f = lookupAssoc rest f := by
        simp [lookupAssoc, hgf]
      rw [hcons]
      have hcache : lookupAssoc (processImage env cache g addrs) (f, v) =
          lookupAssoc cache (f, v) := by
        rw [processImage_lookup env cache g addrs haddrs f v]
        have hfg : ¬ f = g := fun h => hgf h.symm
        simp [hfg]
      cases lookupAssoc rest f with
      | none => simpa using hcache
      | some vaddrs =>
        simp only
        cases imageLookup env f vaddrs v with
        | none => simpa using hcache
        | some n => rfl

/-- The central characterisation of the resolution cache: a fold-time lookup
keyed by the recorded `(image, vaddr)` pair is decided exactly by the batch
of that image in the collector's grouping — entries are keyed by the
recorded image path, and other images' batches can never contribute. -/
theorem resolve_symbols_lookup (env : ExtEnv) (samples : List Sample) (f v : String) :
    lookupAssoc (resolve_symbols env samples) (f, v) =
      match lookupAssoc (collectToResolve samples) f with
      | some vaddrs => imageLookup env f vaddrs v
      | none => none := by
  obtain ⟨hkeys, hentries⟩ := collectToResolve_good samples
  unfold resolve_symbols
  rw [resolveFold_lookup env _ [] f v hkeys hentries]
  cases lookupAssoc (collectToResolve samples) f with
  | none => rfl
  | some vaddrs =>
    simp only
    cases imageLookup env f vaddrs v with
    | none => rfl
    | some n => rfl

/-! ## Parser invariants: every emitted sample has a non-empty stack -/

theorem finalizeStack_stacks (samples : List Sample) (n : Nat) (stack : List Frame)
    (h : ∀ s ∈ samples, s.stack ≠ []) : ∀ s ∈ finalizeStack samples n stack, s.stack ≠ [] := by
  unfold finalizeStack
  cases stack with
  | nil => simpa using h
  | cons a l =>
    intro s hs
    simp only [List.isEmpty_cons, if_false, Bool.false_eq_true] at hs
    rcases List.mem_append.mp hs with hs | hs
    · exact h s hs
    · simp only [List.mem_singleton] at hs
      subst hs
      simp

theorem finalizeAtMarker_stacks (st : PState) (h : ∀ s ∈ st.samples, s.stack ≠ []) :
    ∀ s ∈ finalizeAtMarker st, s.stack ≠ [] := by
  unfold finalizeAtMarker
  cases st.csample with
  | none => exact h
  | some n => exact finalizeStack_stacks _ _ _ h

theorem finalizeAtEOF_stacks (st : PState) (h : ∀ s ∈ st.samples, s.stack ≠ []) :
    ∀ s ∈ finalizeAtEOF st, s.stack ≠ [] := by
  unfold finalizeAtEOF
  cases st.csample with
  | none => exact h
  | some n => exact finalizeStack_stacks _ _ _ h

theorem pstep_stacks (st : PState) (l : Line) (h : ∀ s ∈ st.samples, s.stack ≠ []) :
    ∀ s ∈ (pstep st l).samples, s.stack ≠ [] := by
  cases l with
  | sampleMarker => exact finalizeAtMarker_stacks st h
  | eventCount n => cases n <;> simpa [pstep] using h
  | callchainMarker =>
    by_cases hf : frameTruthy st.cframe = true <;> simpa [pstep, hf] using h
  | vaddrLine v =>
    cases v with
    | none =>
      by_cases hv : strTruthy st.cframe.vaddr = true <;> simpa [pstep, hv] using h
    | some s =>
      by_cases hv : strTruthy st.cframe.vaddr = true <;> simpa [pstep, hv] using h
  | fileLine s => cases s <;> simpa [pstep] using h
  | symbolLine s => cases s <;> simpa [pstep] using h
  | other => simpa [pstep] using h

theorem foldl_pstep_stacks (ls : List Line) :
    ∀ st : PState, (∀ s ∈ st.samples, s.stack ≠ []) →
      ∀ s ∈ (ls.foldl pstep st).samples, s.stack ≠ [] := by
  induction ls with
  | nil => intro st h; exact h
  | cons l ls ih => intro st h; exact ih _ (pstep_stacks st l h)

theorem parse_v2_stacks (ls : List Line) :
    ∀ s ∈ parse_simpleperf_output_v2 ls, s.stack ≠ [] := by
  unfold parse_simpleperf_output_v2
  exact finalizeAtEOF_stacks _ (foldl_pstep_stacks ls initPState (by simp [initPState]))

theorem cFinalizeChain_stacks (samples : List (SampleDict × List String)) (cs : SampleDict)
    (callchain : List String) (h : ∀ p ∈ samples, p.2 ≠ []) :
    ∀ p ∈ cFinalizeChain samples cs callchain, p.2 ≠ [] := by
  unfold cFinalizeChain
  cases callchain with
  | nil => simpa using h
  | cons a l =>
    intro p hp
    simp only [List.isEmpty_cons, if_false, Bool.false_eq_true] at hp
    rcases List.mem_append.mp hp with hp | hp
    · exact h p hp
    · simp only [List.mem_singleton] at hp
      subst hp
      simp

theorem cFinalize_stacks (st : CState) (h : ∀ p ∈ st.samples, p.2 ≠ []) :
    ∀ p ∈ cFinalize st, p.2 ≠ [] := by
  unfold cFinalize
  cases st.csample with
  | none => exact h
  | some cs =>
    by_cases hc : sdictTruthy cs = true
    · simpa [hc] using cFinalizeChain_stacks _ _ _ h
    · simpa [hc] using h

theorem cstep_stacks (st : CState) (l : CLine) (st' : CState) (hstep : cstep st l = some st')
    (h : ∀ p ∈ st.samples, p.2 ≠ []) : ∀ p ∈ st'.samples, p.2 ≠ [] := by
  cases l with
  | sampleMarker =>
    simp only [cstep, Option.some.injEq] at hstep
    subst hstep
    exact cFinalize_stacks st h
  | eventCount n =>
    cases n with
    | none =>
      simp only [cstep, Option.some.injEq] at hstep
      subst hstep
      exact h
    | some k =>
      cases hcs : st.csample with
      | none => simp [cstep, hcs] at hstep
      | some cs =>
        simp only [cstep, hcs, Option.some.injEq] at hstep
        subst hstep
        exact h
  | threadName s =>
    cases s with
    | none =>
      simp only [cstep, Option.some.injEq] at hstep
      subst hstep
      exact h
    | some t =>
      cases hcs : st.csample with
      | none => simp [cstep, hcs] at hstep
      | some cs =>
        simp only [cstep, hcs, Option.some.injEq] at hstep
        subst hstep
        exact h
  | callchainMarker =>
    simp only [cstep, Option.some.injEq] at hstep
    subst hstep
    exact h
  | symbolLine s =>
    cases s with
    | none =>
      simp only [cstep, Option.some.injEq] at hstep
      subst hstep
      exact h
    | some sy =>
      by_cases hin : st.inCallchain = true
      · simp only [cstep, hin, if_true, Option.some.injEq] at hstep
        subst hstep
        exact h
      · cases hcs : st.csample with
        | none => simp [cstep, hin, hcs] at hstep
        | some cs =>
          by_cases hm : strTruthy cs.main_symbol = true <;>
            · simp only [cstep, hin, hcs, hm, Option.some.injEq, if_true, if_false,
                Bool.false_eq_true] at hstep
              subst hstep
              exact h
  | other =>
    simp only [cstep, Option.some.injEq] at hstep
    subst hstep
    exact h

theorem foldlM_cstep_stacks (ls : List CLine) :
    ∀ st st', List.foldlM cstep st ls = some st' →
      (∀ p ∈ st.samples, p.2 ≠ []) → ∀ p ∈ st'.samples, p.2 ≠ [] := by
  induction ls with
  | nil =>
    intro st st' hfold h
    simp only [List.foldlM_nil, Option.pure_def, Option.some.injEq] at hfold
    subst hfold
    exact h
  | cons l ls ih =>
    intro st st' hfold h
    rw [List.foldlM_cons] at hfold
    cases hstep : cstep st l with
    | none => simp [hstep] at hfold
    | some st1 =>
      simp only [hstep, Option.bind_eq_bind, Option.some_bind] at hfold
      exact ih st1 st' hfold (cstep_stacks st l st1 hstep h)

theorem parse_v1_stacks (ls : List CLine) (out : List (SampleDict × List String))
    (hout : parse_simpleperf_output ls = some out) : ∀ p ∈ out, p.2 ≠ [] := by
  unfold parse_simpleperf_output at hout
  cases hfold : List.foldlM cstep initCState ls with
  | none => simp [hfold] at hout
  | some st' =>
    simp only [hfold, Option.map_some', Option.some.injEq] at hout
    subst hout
    exact cFinalize_stacks st'
      (foldlM_cstep_stacks ls initCState st' hfold (by simp [initCState]))

/-! ## Joining and splitting round-trip -/

theorem strFoldl_append (sep : String) (xs : List String) :
    ∀ (a b : String),
      xs.foldl (fun acc y => acc ++ sep ++ y) (a ++ b) =
        a ++ xs.foldl (fun acc y => acc ++ sep ++ y) b := by
  induction xs with
  | nil => intro a b; rfl
  | cons z zs ih =>
    intro a b
    simp only [List.foldl_cons]
    rw [String.append_assoc (a ++ b) sep z, String.append_assoc a b (sep ++ z),
      ← String.append_assoc b sep z]
    exact ih a (b ++ sep ++ z)

theorem pyJoin_cons_cons (sep x y : String) (xs : List String) :
    pyJoin sep (x :: y :: xs) = x ++ sep ++ pyJoin sep (y :: xs) := by
  show xs.foldl (fun acc z => acc ++ sep ++ z) (x ++ sep ++ y) =
    x ++ sep ++ pyJoin sep (y :: xs)
  exact strFoldl_append sep xs (x ++ sep) y

theorem chSplit_not_mem (sep : Char) (l : List Char) (h : sep ∉ l) : chSplit sep l = [l] := by
  induction l with
  | nil => rfl
  | cons c cs ih =>
    simp only [List.mem_cons] at h
    push_neg at h
    have hc : ¬ c = sep := fun he => h.1 he.symm
    simp only [chSplit, if_neg hc, ih h.2]

theorem chSplit_append_sep (sep : Char) (l1 l2 : List Char) (h : sep ∉ l1) :
    chSplit sep (l1 ++ sep :: l2) = l1 :: chSplit sep l2 := by
  induction l1 with
  | nil => simp [chSplit]
  | cons c cs ih =>
    simp only [List.mem_cons] at h
    push_neg at h
    have hc : ¬ c = sep := fun he => h.1 he.symm
    show chSplit sep (c :: (cs ++ sep :: l2)) = (c :: cs) :: chSplit sep l2
    simp only [chSplit, if_neg hc]
    rw [ih h.2]

theorem pySplit_pyJoin (sepc : Char) (seps : String) (hsep : seps.data = [sepc])
    (parts : List String) (hne : parts ≠ []) (h : ∀ p ∈ parts, sepc ∉ p.data) :
    pySplit sepc (pyJoin seps parts) = parts := by
  induction parts with
  | nil => exact absurd rfl hne
  | cons x xs ih =>
    cases xs with
    | nil =>
      show (chSplit sepc x.data).map (fun l => String.mk l) = [x]
      rw [chSplit_not_mem sepc x.data (h x (List.mem_cons_self _ _))]
      rfl
    | cons y ys =>
      rw [pyJoin_cons_cons]
      show (chSplit sepc (x ++ seps ++ pyJoin seps (y :: ys)).data).map (fun l => String.mk l) =
        x :: y :: ys
      have hdata : (x ++ seps ++ pyJoin seps (y :: ys)).data =
          x.data ++ sepc :: (pyJoin seps (y :: ys)).data := by
        rw [String.data_append, String.data_append, hsep, List.append_assoc]
        rfl
      rw [hdata, chSplit_append_sep sepc _ _ (h x (List.mem_cons_self _ _))]
      have hrest : ∀ p ∈ y :: ys, sepc ∉ p.data := fun p hp => h p (List.mem_cons_of_mem _ hp)
      have := ih (by simp) hrest
      simp only [List.map_cons]
      rw [show String.mk x.data = x from rfl]
      exact congrArg (x :: ·) this

/-! ## The rendering priority -/

/-- The synthesized fallback label `basename[+offset]`. -/
def synthLabel (fr : Frame) : String :=
  basename (fr.file.getD "") ++ "[+" ++ pyOptRepr fr.vaddr ++ "]"

/-- Frame rendering restated as a label priority: (1) the cached resolved
name; (2) the frame's recorded symbol, except that a recorded symbol equal to
the literal sentinel `unknown` is replaced by the synthesized label when the
frame has a truthy image; (3) the synthesized label when the frame has a
truthy image; (4) the placeholder `unknown`. -/
def renderPriority (resolved : List ((String × String) × String)) (fr : Frame) : String :=
  match cacheLookup resolved fr with
  | some name => name
  | none =>
    match fr.symbol with
    | some s => if s = "unknown" && strTruthy fr.file then synthLabel fr else s
    | none => if strTruthy fr.file then synthLabel fr else "unknown"

theorem renderFrame_eq_renderPriority (resolved : List ((String × String) × String))
    (fr : Frame) : renderFrame resolved fr = renderPriority resolved fr := by
  unfold renderFrame renderPriority synthLabel
  cases cacheLookup resolved fr with
  | some name => rfl
  | none =>
    cases fr.symbol with
    | none => simp
    | some s => simp [Option.getD]

theorem synthLabel_ne_empty (fr : Frame) : synthLabel fr ≠ "" := by
  unfold synthLabel
  intro h
  have hd := congrArg String.data h
  simp only [String.data_append] at hd
  rcases List.append_eq_nil.mp hd with ⟨-, h2⟩
  exact absurd h2 (by decide)

theorem renderFrame_ne_empty (resolved : List ((String × String) × String)) (fr : Frame)
    (hres : ∀ p ∈ resolved, p.2 ≠ "") (hsym : fr.symbol ≠ some "") :
    renderFrame resolved fr ≠ "" := by
  rw [renderFrame_eq_renderPriority]
  unfold renderPriority
  cases hc : cacheLookup resolved fr with
  | some name =>
    unfold cacheLookup at hc
    cases hf : fr.file with
    | none => rw [hf] at hc; exact absurd hc (by simp)
    | some f =>
      cases hv : fr.vaddr with
      | none => rw [hf, hv] at hc; exact absurd hc (by simp)
      | some v =>
        rw [hf, hv] at hc
        exact hres _ (lookupAssoc_mem resolved (f, v) name hc)
  | none =>
    cases hs : fr.symbol with
    | none =>
      by_cases ht : strTruthy fr.file = true
      · simpa [ht] using synthLabel_ne_empty fr
      · simp only [ht, Bool.false_eq_true, if_false]
        decide
    | some s =>
      have hsne : s ≠ "" := fun he => hsym (by rw [hs, he])
      by_cases hcond : (s = "unknown" && strTruthy fr.file) = true
      · simpa [hcond] using synthLabel_ne_empty fr
      · simpa [hcond] using hsne

/-! ## The two finalisation paths of `parse_simpleperf_output_v2` -/

theorem finalize_agree (st : PState)
    (h : st.cstack = [] ∨ frameTruthy st.cframe = false) :
    finalizeAtMarker st = finalizeAtEOF st := by
  unfold finalizeAtMarker finalizeAtEOF
  cases st.csample with
  | none => rfl
  | some n =>
    rcases h with h | h
    · rw [h]
      simp
    · rw [h]
      simp

theorem finalize_disagree (st : PState) (n : Nat) (hcs : st.csample = some n)
    (hne : st.cstack ≠ []) (hf : frameTruthy st.cframe = true) :
    finalizeAtMarker st = st.samples ++ [⟨n, st.cstack.reverse⟩] ∧
      finalizeAtEOF st = st.samples ++ [⟨n, (st.cstack ++ [st.cframe]).reverse⟩] := by
  have hie : st.cstack.isEmpty = false := by
    cases hc : st.cstack with
    | nil => exact absurd hc hne
    | cons a l => rfl
  constructor
  · unfold finalizeAtMarker finalizeStack
    rw [hcs]
    simp [hie, List.isEmpty_iff, hne]
  · unfold finalizeAtEOF finalizeStack
    rw [hcs]
    simp [hf, List.isEmpty_iff]

theorem finalizeAtMarker_fallback (st : PState) (n : Nat) (hcs : st.csample = some n)
    (hst : st.cstack = []) (hf : frameTruthy st.cframe = true) :
    finalizeAtMarker st = st.samples ++ [⟨n, [st.cframe]⟩] := by
  unfold finalizeAtMarker finalizeStack
  rw [hcs, hst]
  simp [hf]

theorem finalizeAtEOF_fallback (st : PState) (n : Nat) (hcs : st.csample = some n)
    (hst : st.cstack = []) (hf : frameTruthy st.cframe = true) :
    finalizeAtEOF st = st.samples ++ [⟨n, [st.cframe]⟩] := by
  unfold finalizeAtEOF finalizeStack
  rw [hcs, hst]
  simp [hf]

theorem cFinalize_fallback (st : CState) (cs : SampleDict) (m : String)
    (hcs : st.csample = some cs) (ht : sdictTruthy cs = true) (hchain : st.callchain = [])
    (hm : cs.main_symbol = some m) (hmne : m ≠ "") :
    cFinalize st = st.samples ++ [(cs, [m])] := by
  unfold cFinalize cFinalizeChain
  rw [hcs, hchain]
  simp [ht, strTruthy, hm, hmne]

/-! ## Claims -/

/-- Claim C1, counterexample.  The claim says the end-of-stream finalisation
follows the same rule as the new-sample-marker finalisation, committing any
pending frame in both cases.  On the same record content — count 5, a main
frame `aa`, then callchain frames `bb` and `cc` (frame `cc` still pending in
the frame buffer) — finalising at a marker line drops the pending frame `cc`
(it is committed only when the stack is empty), while finalising at end of
stream commits it: the two paths produce different samples. -/
theorem C1_counterexample :
    parse_simpleperf_output_v2
        [.sampleMarker, .eventCount (some 5), .vaddrLine (some "aa"), .callchainMarker,
         .vaddrLine (some "bb"), .vaddrLine (some "cc"), .sampleMarker] =
      [⟨5, [⟨some "bb", none, none⟩, ⟨some "aa", none, none⟩]⟩] ∧
    parse_simpleperf_output_v2
        [.sampleMarker, .eventCount (some 5), .vaddrLine (some "aa"), .callchainMarker,
         .vaddrLine (some "bb"), .vaddrLine (some "cc")] =
      [⟨5, [⟨some "cc", none, none⟩, ⟨some "bb", none, none⟩, ⟨some "aa", none, none⟩]⟩] := by
  constructor <;> decide

/-- Claim C1, amended.  The two finalisation paths of
`parse_simpleperf_output_v2` agree exactly when the collected stack is empty
or no frame is pending: at end of stream the pending frame is committed to
the stack unconditionally, while at a new-sample marker it is committed only
when the stack is empty, so with a non-empty stack and a pending frame the
marker path drops the pending frame and the end-of-stream path keeps it. -/
theorem C1_amended (st : PState) :
    ((st.cstack = [] ∨ frameTruthy st.cframe = false) →
      finalizeAtMarker st = finalizeAtEOF st) ∧
    (∀ n : Nat, st.csample = some n → st.cstack ≠ [] → frameTruthy st.cframe = true →
      finalizeAtMarker st = st.samples ++ [⟨n, st.cstack.reverse⟩] ∧
      finalizeAtEOF st = st.samples ++ [⟨n, (st.cstack ++ [st.cframe]).reverse⟩]) :=
  ⟨finalize_agree st, fun n hcs hne hf => finalize_disagree st n hcs hne hf⟩

/-- Claim C1, witness for the amended theorem at concrete states. -/
theorem C1_amended_witness :
    finalizeAtMarker ⟨[], some 1, [], ⟨some "aa", none, none⟩, false⟩ =
      finalizeAtEOF ⟨[], some 1, [], ⟨some "aa", none, none⟩, false⟩ ∧
    finalizeAtMarker ⟨[], some 5, [⟨some "bb", none, none⟩], ⟨some "cc", none, none⟩, false⟩ =
      [⟨5, [⟨some "bb", none, none⟩]⟩] ∧
    finalizeAtEOF ⟨[], some 5, [⟨some "bb", none, none⟩], ⟨some "cc", none, none⟩, false⟩ =
      [⟨5, [⟨some "cc", none, none⟩, ⟨some "bb", none, none⟩]⟩] := by
  refine ⟨(C1_amended _).1 (Or.inl rfl), ?_, ?_⟩
  · exact (((C1_amended _).2 5 rfl (by decide) (by decide)).1).trans (by decide)
  · exact (((C1_amended _).2 5 rfl (by decide) (by decide)).2).trans (by decide)

/-- Claim C3.  In both parsers: every emitted sample has a non-empty stack
(so no blank-labelled line can arise), and a record with an empty callchain
but a present top-level frame / symbol is finalised — at a marker and at end
of stream alike — as the single-frame stack consisting of exactly that
frame. -/
theorem C3_empty_callchain_fallback :
    (∀ (ls : List Line), ∀ s ∈ parse_simpleperf_output_v2 ls, s.stack ≠ []) ∧
    (∀ (st : PState) (n : Nat), st.csample = some n → st.cstack = [] →
      frameTruthy st.cframe = true →
      finalizeAtMarker st = st.samples ++ [⟨n, [st.cframe]⟩] ∧
      finalizeAtEOF st = st.samples ++ [⟨n, [st.cframe]⟩]) ∧
    (∀ (ls : List CLine) (out : List (SampleDict × List String)),
      parse_simpleperf_output ls = some out → ∀ p ∈ out, p.2 ≠ []) ∧
    (∀ (st : CState) (cs : SampleDict) (m : String), st.csample = some cs →
      sdictTruthy cs = true → st.callchain = [] → cs.main_symbol = some m → m ≠ "" →
      cFinalize st = st.samples ++ [(cs, [m])]) := by
  refine ⟨parse_v2_stacks, ?_, parse_v1_stacks, cFinalize_fallback⟩
  intro st n hcs hst hf
  exact ⟨finalizeAtMarker_fallback st n hcs hst hf, finalizeAtEOF_fallback st n hcs hst hf⟩

/-- Claim C3, witness at concrete inputs for each conjunct. -/
theorem C3_empty_callchain_fallback_witness :
    (⟨1, [⟨none, none, some "f"⟩]⟩ : Sample).stack ≠ [] ∧
    finalizeAtMarker ⟨[], some 7, [], ⟨none, some "/lib/x.so", none⟩, false⟩ =
      [⟨7, [⟨none, some "/lib/x.so", none⟩]⟩] ∧
    finalizeAtEOF ⟨[], some 7, [], ⟨none, some "/lib/x.so", none⟩, false⟩ =
      [⟨7, [⟨none, some "/lib/x.so", none⟩]⟩] ∧
    ((⟨none, none, some "m"⟩, ["m"]) : SampleDict × List String).2 ≠ [] ∧
    cFinalize ⟨[], some ⟨none, none, some "m"⟩, [], false⟩ =
      [(⟨none, none, some "m"⟩, ["m"])] := by
  refine ⟨?_, ?_, ?_, ?_, ?_⟩
  · exact C3_empty_callchain_fallback.1 [.sampleMarker, .symbolLine (some "f"), .sampleMarker]
      ⟨1, [⟨none, none, some "f"⟩]⟩ (by decide)
  · exact ((C3_empty_callchain_fallback.2.1 _ 7 rfl rfl (by decide)).1).trans (by decide)
  · exact ((C3_empty_callchain_fallback.2.1 _ 7 rfl rfl (by decide)).2).trans (by decide)
  · exact C3_empty_callchain_fallback.2.2.1 [.sampleMarker, .symbolLine (some "m"), .sampleMarker]
      [(⟨none, none, some "m"⟩, ["m"])] (by decide) _ (by decide)
  · exact (C3_empty_callchain_fallback.2.2.2 _ ⟨none, none, some "m"⟩ "m" rfl (by decide) rfl rfl
      (by decide)).trans (by decide)

/-- Claim C4, counterexample.  The claim's priority (2) says a present
recorded symbol is used as the label; but a frame whose recorded symbol is
the literal string `unknown` and which has an image is rendered with the
synthesized label instead, and a frame whose recorded symbol is the empty
string renders to the empty label — so the stated priority and the stated
non-emptiness both fail. -/
theorem C4_counterexample :
    renderFrame [] ⟨some "1a2b", some "/lib/libfoo.so", some "unknown"⟩ = "libfoo.so[+1a2b]" ∧
    "libfoo.so[+1a2b]" ≠ "unknown" ∧
    renderFrame [] ⟨some "1a2b", some "/lib/libfoo.so", some ""⟩ = "" := by
  refine ⟨by decide, by decide, by decide⟩

/-- Claim C4, amended.  Frame rendering follows the priority: (1) the cached
resolved name for the frame's `(image, vaddr)`; (2) the frame's own recorded
symbol if present, except that a recorded symbol equal to the literal
sentinel `unknown` is replaced by the synthesized label when the frame has a
truthy image; (3) the synthesized label `basename[+offset]` when the frame
has a truthy image; (4) the placeholder `unknown`.  A frame with image
`/lib/libfoo.so`, address `1a2b`, no cache entry and no symbol renders
exactly as `libfoo.so[+1a2b]`; and every frame renders to a non-empty label
provided its recorded symbol, when present, is non-empty and the cached
names are non-empty. -/
theorem C4_amended :
    (∀ (resolved : List ((String × String) × String)) (fr : Frame),
      renderFrame resolved fr = renderPriority resolved fr) ∧
    renderFrame [] ⟨some "1a2b", some "/lib/libfoo.so", none⟩ = "libfoo.so[+1a2b]" ∧
    (∀ (resolved : List ((String × String) × String)) (fr : Frame),
      (∀ p ∈ resolved, p.2 ≠ "") → fr.symbol ≠ some "" → renderFrame resolved fr ≠ "") :=
  ⟨renderFrame_eq_renderPriority, by decide, renderFrame_ne_empty⟩

/-- Claim C4, witness for the amended theorem at concrete frames. -/
theorem C4_amended_witness :
    renderFrame [] ⟨some "aa", some "/lib/x.so", some "sym"⟩ =
      renderPriority [] ⟨some "aa", some "/lib/x.so", some "sym"⟩ ∧
    renderFrame [(("/lib/x.so", "aa"), "nm")] ⟨some "aa", some "/lib/x.so", none⟩ ≠ "" :=
  ⟨C4_amended.1 [] _,
   C4_amended.2.2 [(("/lib/x.so", "aa"), "nm")] ⟨some "aa", some "/lib/x.so", none⟩
     (by decide) (by decide)⟩

/-- Claim C5.  Conservation of weight through folding, in both folding
loops: the total count stored in the produced mapping equals the sum of the
counts of the samples with a non-empty stack (every frame always renders to
exactly one label, so a sample yields a renderable frame iff its stack is
non-empty; `event_count`-less records in `convert_simpleperf_to_folded.py`
weigh their default 1). -/
theorem C5_weight_conservation :
    (∀ (resolved : List ((String × String) × String)) (samples : List Sample),
      sumVals (foldSamples resolved samples) =
        ((samples.filter (fun s => !s.stack.isEmpty)).map Sample.count).sum) ∧
    (∀ samples : List (SampleDict × List String),
      sumVals (convert_to_folded samples) =
        ((samples.filter (fun p => !p.2.isEmpty)).map (fun p => p.1.count.getD 1)).sum) := by
  constructor
  · intro resolved samples
    unfold foldSamples
    rw [foldStep_eq_stepOf, foldl_stepOf_sum, map_if_sum_eq_filter]
    have hguard : (fun s : Sample => !(s.stack.map (renderFrame resolved)).isEmpty) =
        (fun s : Sample => !s.stack.isEmpty) := by
      funext s
      cases s.stack <;> rfl
    rw [hguard]
    simp [sumVals]
  · intro samples
    unfold convert_to_folded
    rw [convertStep_eq_stepOf, foldl_stepOf_sum, map_if_sum_eq_filter]
    simp [sumVals]

theorem lookupAssoc_isSome_mem_keys {κ ν : Type} [DecidableEq κ] (l : List (κ × ν)) (k : κ)
    (h : (lookupAssoc l k).isSome) : k ∈ l.map Prod.fst := by
  induction l with
  | nil => simp [lookupAssoc] at h
  | cons p rest ih =>
    obtain ⟨k0, v0⟩ := p
    by_cases hk : k0 = k
    · subst hk
      simp
    · simp only [lookupAssoc, if_neg hk] at h
      simp [ih h]

theorem foldl_preserve_mem {α β : Type} (P : β → Prop) :
    ∀ (l : List α) (step : β → α → β),
      (∀ acc x, x ∈ l → P acc → P (step acc x)) → ∀ acc, P acc → P (l.foldl step acc) := by
  intro l
  induction l with
  | nil => intro step h acc hacc; exact hacc
  | cons x xs ih =>
    intro step h acc hacc
    exact ih step (fun a y hy ha => h a y (List.mem_cons_of_mem _ hy) ha) _
      (h acc x (List.mem_cons_self _ _) hacc)

theorem toResolveAdd_keys_cases (l : List (String × List String)) (f v g : String)
    (hg : g ∈ (toResolveAdd l f v).map Prod.fst) : g ∈ l.map Prod.fst ∨ g = f := by
  rw [toResolveAdd_keys] at hg
  by_cases hm : f ∈ l.map Prod.fst
  · rw [if_pos hm] at hg
    exact Or.inl hg
  · rw [if_neg hm] at hg
    rcases List.mem_append.mp hg with hg | hg
    · exact Or.inl hg
    · exact Or.inr (List.mem_singleton.mp hg)

theorem frameEligible_file (fr : Frame) (h : frameEligible fr = true) :
    fr.file = some (fr.file.getD "") := by
  cases hf : fr.file with
  | none =>
    unfold frameEligible at h
    rw [hf] at h
    cases fr.vaddr <;> simp at h
  | some f' => rfl

/-- Every image key of the collector's grouping is the recorded `file` of
some frame of some sample. -/
theorem collect_keys (samples : List Sample) :
    ∀ g ∈ (collectToResolve samples).map Prod.fst,
      ∃ s ∈ samples, ∃ fr ∈ s.stack, fr.file = some g := by
  unfold collectToResolve
  refine foldl_preserve_mem
    (fun acc => ∀ g ∈ acc.map Prod.fst, ∃ s ∈ samples, ∃ fr ∈ s.stack, fr.file = some g)
    samples
    (fun acc s =>
      s.stack.foldl
        (fun acc2 fr =>
          if frameEligible fr then toResolveAdd acc2 (fr.file.getD "") (fr.vaddr.getD "")
          else acc2)
        acc)
    ?_ [] (by simp)
  intro acc s hs hacc
  refine foldl_preserve_mem
    (fun acc2 => ∀ g ∈ acc2.map Prod.fst, ∃ s ∈ samples, ∃ fr ∈ s.stack, fr.file = some g)
    s.stack
    (fun acc2 fr =>
      if frameEligible fr then toResolveAdd acc2 (fr.file.getD "") (fr.vaddr.getD "")
      else acc2)
    ?_ acc hacc
  intro acc2 fr hfr hacc2 g hg
  replace hg : g ∈
      (if frameEligible fr then toResolveAdd acc2 (fr.file.getD "") (fr.vaddr.getD "")
       else acc2).map Prod.fst := hg
  by_cases he : frameEligible fr = true
  · rw [if_pos he] at hg
    rcases toResolveAdd_keys_cases acc2 (fr.file.getD "") (fr.vaddr.getD "") g hg with hg | hg
    · exact hacc2 g hg
    · subst hg
      exact ⟨s, hs, fr, hfr, frameEligible_file fr he⟩
  · rw [if_neg he] at hg
    exact hacc2 g hg

/-- Claim C2.  If the symbolizer's standard output for an image's batch has
fewer lines than twice the number of distinct submitted addresses, the whole
batch is treated as unresolved: no `(image, vaddr)` cache entry exists for
that image, so every address of the image takes the fold-time fallback
naming. -/
theorem C2_short_response_fails_closed (env : ExtEnv) (samples : List Sample)
    (f : String) (vaddrs : List String) (lp out : String)
    (hcoll : lookupAssoc (collectToResolve samples) f = some vaddrs)
    (hloc : locateImage env f = some lp)
    (hsym : env.symbolizer lp (batchInput (pySort vaddrs)) = some out)
    (hlen : (pySplit '\n' (pyStrip out)).length < vaddrs.length * 2) :
    ∀ v, lookupAssoc (resolve_symbols env samples) (f, v) = none := by
  intro v
  rw [resolve_symbols_lookup env samples f v, hcoll]
  unfold imageLookup
  simp only [hloc, hsym]
  have hnle : ¬ (pySort vaddrs).length * 2 ≤ (pySplit '\n' (pyStrip out)).length := by
    rw [pySort_length]
    omega
  simp [hnle]

/-- Oracle environment for the C2 witness: every path exists, the symbolizer
answers a single line. -/
def envC2 : ExtEnv :=
  ⟨fun _ => true, fun _ => [], fun _ _ => some "x"⟩

/-- Input samples for the C2 witness: one eligible frame. -/
def samplesC2 : List Sample := [⟨1, [⟨some "aa", some "/lib/a.so", none⟩]⟩]

/-- Claim C2, witness: a one-line response for a one-address batch (needing
two lines) leaves the image's address uncached. -/
theorem C2_short_response_fails_closed_witness :
    lookupAssoc (resolve_symbols envC2 samplesC2) ("/lib/a.so", "aa") = none :=
  C2_short_response_fails_closed envC2 samplesC2 "/lib/a.so" ["aa"]
    (SYMBOLS_DIR ++ "/" ++ "lib/a.so") "x" (by decide) (by decide) rfl (by decide) "aa"

/-- Samples for the C6 counterexample: one image with recorded addresses
`ff` and `1a2b`. -/
def samplesC6 : List Sample :=
  [⟨1, [⟨some "ff", some "/lib/a.so", none⟩, ⟨some "1a2b", some "/lib/a.so", none⟩]⟩]

/-- Claim C6, counterexample.  The batch is sorted with Python string
comparison, which orders the hexadecimal strings lexicographically, not by
numeric value: for the address set of `samplesC6` the submitted standard
input is `0x1a2b` (value 6699) before `0xff` (value 255), so the submission
is not in ascending order of address value. -/
theorem C6_counterexample :
    collectToResolve samplesC6 = [("/lib/a.so", ["ff", "1a2b"])] ∧
    pySort ["ff", "1a2b"] = ["1a2b", "ff"] ∧
    batchInput (pySort ["ff", "1a2b"]) = "0x1a2b\n0xff" ∧
    hexToNat "ff" < hexToNat "1a2b" ∧
    ¬ List.Sorted (fun a b => a ≤ b) ((pySort ["ff", "1a2b"]).map hexToNat) := by
  refine ⟨by decide, by decide, by decide, by decide, by decide⟩

/-- Claim C6, amended.  For every image batch, the distinct pending addresses
are submitted as one batched invocation, one `0x`-prefixed address per line
on standard input, in ascending lexicographic (code-point string) order of
the recorded hexadecimal address strings — which coincides with ascending
numeric value only when the representations are compatible (for example,
equal length and case), not in general. -/
theorem C6_amended :
    (∀ vaddrs : List String, List.Sorted pyLe (pySort vaddrs) ∧ (pySort vaddrs).Perm vaddrs) ∧
    (∀ vaddrs : List String, vaddrs ≠ [] → (∀ v ∈ vaddrs, ('\n' : Char) ∉ v.data) →
      pySplit '\n' (batchInput (pySort vaddrs)) = (pySort vaddrs).map (fun v => "0x" ++ v)) := by
  constructor
  · exact fun vaddrs => ⟨pySort_sorted vaddrs, pySort_perm vaddrs⟩
  · intro vaddrs hne h
    unfold batchInput
    apply pySplit_pyJoin '\n' "\n" (by decide)
    · intro hmap
      have hsort : pySort vaddrs = [] := List.map_eq_nil_iff.mp hmap
      have : vaddrs = [] := by
        have hperm := pySort_perm vaddrs
        rw [hsort] at hperm
        exact (hperm.symm.eq_nil)
      exact hne this
    · intro p hp
      rcases List.mem_map.mp hp with ⟨v, hv, rfl⟩
      rw [String.data_append]
      intro hmem
      rcases List.mem_append.mp hmem with hmem | hmem
      · exact absurd hmem (by decide)
      · exact h v ((pySort_mem vaddrs v).mp hv) hmem

/-- Claim C6, witness for the amended theorem at the two-address batch. -/
theorem C6_amended_witness :
    List.Sorted pyLe (pySort ["ff", "1a2b"]) ∧ (pySort ["ff", "1a2b"]).Perm ["ff", "1a2b"] ∧
    pySplit '\n' (batchInput (pySort ["ff", "1a2b"])) =
      (pySort ["ff", "1a2b"]).map (fun v => "0x" ++ v) :=
  ⟨(C6_amended.1 ["ff", "1a2b"]).1, (C6_amended.1 ["ff", "1a2b"]).2,
   C6_amended.2 ["ff", "1a2b"] (by decide) (by decide)⟩

/-- Claim C7.  Folding is order-independent in both folding loops: permuting
the sample list (each sample's internal structure unchanged) leaves every fold
key's aggregated count unchanged, and leaves the key set unchanged — only the
tie-break emission order may differ. -/
theorem C7_order_independence :
    (∀ (resolved : List ((String × String) × String)) (s1 s2 : List Sample), s1.Perm s2 →
      (∀ k, lookupCount (foldSamples resolved s1) k = lookupCount (foldSamples resolved s2) k) ∧
      (∀ k, (lookupAssoc (foldSamples resolved s1) k).isSome ↔
        (lookupAssoc (foldSamples resolved s2) k).isSome)) ∧
    (∀ l1 l2 : List (SampleDict × List String), l1.Perm l2 →
      (∀ k, lookupCount (convert_to_folded l1) k = lookupCount (convert_to_folded l2) k) ∧
      (∀ k, (lookupAssoc (convert_to_folded l1) k).isSome ↔
        (lookupAssoc (convert_to_folded l2) k).isSome)) := by
  constructor
  · intro resolved s1 s2 hperm
    constructor
    · intro k
      unfold foldSamples
      rw [foldStep_eq_stepOf, foldl_stepOf_lookupCount, foldl_stepOf_lookupCount]
      congr 1
      exact (hperm.map _).sum_eq
    · intro k
      unfold foldSamples
      rw [foldStep_eq_stepOf]
      rw [foldl_stepOf_keys, foldl_stepOf_keys]
      simp only [hperm.mem_iff]
  · intro l1 l2 hperm
    constructor
    · intro k
      unfold convert_to_folded
      rw [convertStep_eq_stepOf, foldl_stepOf_lookupCount, foldl_stepOf_lookupCount]
      congr 1
      exact (hperm.map _).sum_eq
    · intro k
      unfold convert_to_folded
      rw [convertStep_eq_stepOf]
      rw [foldl_stepOf_keys, foldl_stepOf_keys]
      simp only [hperm.mem_iff]

/-- Claim C7, witness at a concrete two-element swap. -/
theorem C7_order_independence_witness :
    lookupCount
        (foldSamples [] [⟨2, [⟨none, none, some "x"⟩]⟩, ⟨3, [⟨none, none, some "y"⟩]⟩]) "x" =
      lookupCount
        (foldSamples [] [⟨3, [⟨none, none, some "y"⟩]⟩, ⟨2, [⟨none, none, some "x"⟩]⟩]) "x" ∧
    (∀ k, lookupCount
        (convert_to_folded [(⟨some 2, none, none⟩, ["a"]), (⟨some 3, none, none⟩, ["b"])]) k =
      lookupCount
        (convert_to_folded [(⟨some 3, none, none⟩, ["b"]), (⟨some 2, none, none⟩, ["a"])]) k) :=
  ⟨(C7_order_independence.1 [] _ _ (List.Perm.swap _ _ [])).1 "x",
   (C7_order_independence.2 _ _ (List.Perm.swap _ _ [])).1⟩

/-- Claim C8.  A per-address function-name line equal to the `??` sentinel is
never cached: when the image's batch passes the length guard and the line at
position `2 * index` for a submitted address is `??`, the resolution cache
has no entry for that `(image, vaddr)` pair. -/
theorem C8_unknown_sentinel_not_cached (env : ExtEnv) (samples : List Sample)
    (f : String) (vaddrs : List String) (lp out v : String)
    (hcoll : lookupAssoc (collectToResolve samples) f = some vaddrs)
    (hloc : locateImage env f = some lp)
    (hsym : env.symbolizer lp (batchInput (pySort vaddrs)) = some out)
    (hlen : (pySort vaddrs).length * 2 ≤ (pySplit '\n' (pyStrip out)).length)
    (hmem : v ∈ pySort vaddrs)
    (hunk : (pySplit '\n' (pyStrip out)).getD (idxOf v (pySort vaddrs) * 2) "" = "??") :
    lookupAssoc (resolve_symbols env samples) (f, v) = none := by
  rw [resolve_symbols_lookup env samples f v, hcoll]
  unfold imageLookup
  simp only [hloc, hsym, if_pos hlen, if_pos hmem]
  simp only [List.getD_eq_getElem?_getD] at hunk
  simp [hunk]

/-- Oracle environment for the C8 witness: the symbolizer answers the `??`
sentinel plus a location line. -/
def envC8 : ExtEnv :=
  ⟨fun _ => true, fun _ => [], fun _ _ => some "??\nl1"⟩

/-- Input samples for the C8 witness: one eligible frame. -/
def samplesC8 : List Sample := [⟨1, [⟨some "aa", some "/lib/a.so", none⟩]⟩]

/-- Claim C8, witness: a `??` response leaves the address uncached. -/
theorem C8_unknown_sentinel_not_cached_witness :
    lookupAssoc (resolve_symbols envC8 samplesC8) ("/lib/a.so", "aa") = none :=
  C8_unknown_sentinel_not_cached envC8 samplesC8 "/lib/a.so" ["aa"]
    (SYMBOLS_DIR ++ "/" ++ "lib/a.so") "??\nl1" "aa" (by decide) (by decide) rfl (by decide)
    (by decide) (by decide)

/-- Claim C9.  Every resolution-cache entry is keyed by the originally
recorded image path of a frame, never by the substitute on-disk path chosen
by the image locator: a fold-time lookup keyed by `(file, vaddr)` is decided
exactly by the batch of that recorded image in the collector's grouping, and
a successful lookup implies the key is a recorded frame image of the parsed
samples. -/
theorem C9_cache_keyed_by_recorded_image (env : ExtEnv) (samples : List Sample)
    (f v : String) :
    lookupAssoc (resolve_symbols env samples) (f, v) =
      (match lookupAssoc (collectToResolve samples) f with
       | some vaddrs => imageLookup env f vaddrs v
       | none => none) ∧
    (∀ n, lookupAssoc (resolve_symbols env samples) (f, v) = some n →
      ∃ s ∈ samples, ∃ fr ∈ s.stack, fr.file = some f) := by
  refine ⟨resolve_symbols_lookup env samples f v, ?_⟩
  intro n hn
  rw [resolve_symbols_lookup env samples f v] at hn
  cases hcoll : lookupAssoc (collectToResolve samples) f with
  | none => rw [hcoll] at hn; simp at hn
  | some vaddrs =>
    exact collect_keys samples f
      (lookupAssoc_isSome_mem_keys _ _ (by rw [hcoll]; rfl))

/-- Oracle environment for the C9 witness: the recorded path does not exist
locally, the base-name search supplies a substitute path, the symbolizer
resolves the address. -/
def envC9 : ExtEnv :=
  ⟨fun _ => false, fun _ => ["/sym/other/libfoo.so"], fun _ _ => some "Name\nl"⟩

/-- Input samples for the C9 witness: one eligible frame. -/
def samplesC9 : List Sample := [⟨1, [⟨some "aa", some "/lib/libfoo.so", none⟩]⟩]

/-- Claim C9, witness: even when the symbolizer ran on a substitute path, the
cache entry is keyed by the recorded image path (and not by the substitute
path). -/
theorem C9_cache_keyed_by_recorded_image_witness :
    (∃ s ∈ samplesC9, ∃ fr ∈ s.stack, fr.file = some "/lib/libfoo.so") ∧
    lookupAssoc (resolve_symbols envC9 samplesC9) ("/lib/libfoo.so", "aa") = some "Name" ∧
    lookupAssoc (resolve_symbols envC9 samplesC9) ("/sym/other/libfoo.so", "aa") = none :=
  ⟨(C9_cache_keyed_by_recorded_image envC9 samplesC9 "/lib/libfoo.so" "aa").2 "Name" (by decide),
   by decide, by decide⟩

/-- Claim C10, counterexample.  When the parsed root-first stack already ends
with two copies of the recorded `main_symbol`, the leaf equals `main_symbol`,
nothing is appended, and the fold key still ends with a duplicated
`main_symbol` pair — refuting the claim's final assertion that the fold key
never ends with such a pair. -/
theorem C10_counterexample :
    foldStack ⟨none, none, some "A"⟩ ["A", "A"] = ["A", "A"] ∧
    (["A", "A"].reverse.take 2 = ["A", "A"]) ∧
    convert_to_folded [(⟨none, none, some "A"⟩, ["A", "A"])] = [("A;A", 1)] := by
  refine ⟨by decide, by decide, by decide⟩

/-- Claim C10, amended.  For a sample with a recorded `main_symbol` and a
non-empty root-first stack: when the leaf label differs from `main_symbol`
the fold key is the stack with `main_symbol` appended as an additional leaf;
when the leaf already equals `main_symbol` nothing is appended; consequently
the appending step never introduces a trailing duplicated `main_symbol` pair
— the fold key ends with such a pair only when the parsed stack already
did. -/
theorem C10_amended (cs : SampleDict) (stack : List String) (m : String)
    (hm : cs.main_symbol = some m) (hne : stack ≠ []) :
    (stack.getLast? ≠ some m → foldStack cs stack = stack ++ [m]) ∧
    (stack.getLast? = some m → foldStack cs stack = stack) ∧
    ((foldStack cs stack).reverse.take 2 = [m, m] → stack.reverse.take 2 = [m, m]) := by
  refine ⟨?_, ?_, ?_⟩
  · intro hlast
    unfold foldStack
    rw [hm]
    simp [hlast]
  · intro hlast
    unfold foldStack
    rw [hm]
    simp [hlast]
  · intro h3
    simp only [foldStack, hm] at h3
    by_cases hlast : stack.getLast? = some m
    · simpa [hlast] using h3
    · rw [if_pos hlast] at h3
      exfalso
      cases hrev : stack.reverse with
      | nil => exact hne (by simpa using congrArg List.reverse hrev)
      | cons a t =>
        rw [List.reverse_append, hrev] at h3
        simp at h3
        have hga : stack.getLast? = some a := by
          rw [← List.head?_reverse, hrev]
          rfl
        rw [h3] at hga
        exact hlast hga

/-- Claim C10, witness for the amended theorem at concrete stacks. -/
theorem C10_amended_witness :
    foldStack ⟨none, none, some "A"⟩ ["B"] = ["B", "A"] ∧
    foldStack ⟨none, none, some "A"⟩ ["A"] = ["A"] :=
  ⟨((C10_amended ⟨none, none, some "A"⟩ ["B"] "A" rfl (by decide)).1 (by decide)).trans
      (by decide),
   (C10_amended ⟨none, none, some "A"⟩ ["A"] "A" rfl (by decide)).2.1 (by decide)⟩
